import Mathlib

/-!
Shallow embedding of the pen-steer core (wheel physics state machine,
coordinate mapping, network pen source, uinput force-feedback device)
with proofs of the specification's testable properties.

Modelling conventions:
* `f32` values are embedded as exact rationals (`ℚ`); the source's
  NaN/Infinity guards are identities in this model since `ℚ` has no
  non-finite values.
* `u32`/`u8` values are embedded as `ℕ`, `i16` as `ℤ` with explicit bounds.
* The transcendental primitives `f32::sqrt` and `f32::atan2` are not
  rational-valued, so `Wheel.update` is parameterised over them
  (`TransOps`); theorems assume only the mathematical facts about them
  they need, and concrete instances agree with the true functions at the
  inputs where they are evaluated.
* `f32::consts::PI` is the exact rational value of the 32-bit float `PI`
  constant, used by `to_radians`/`to_degrees` in the source.
* One claim is specifically about f32 rounding; for it a second model of
  `Mapping::transform` (`transform32`) performs round-to-nearest-even at
  24-bit significand after each arithmetic operation, as f32 does.
-/

/-- The exact rational value of `std::f32::consts::PI`
(bit pattern 0x40490FDB). -/
def pi32 : ℚ := 13176795 / 4194304

/-- `f32::to_radians`: multiply by π/180 (exact-arithmetic model). -/
def toRadians (x : ℚ) : ℚ := x * (pi32 / 180)

/-- `f32::to_degrees`: multiply by 180/π (exact-arithmetic model). -/
def toDegrees (x : ℚ) : ℚ := x * (180 / pi32)

/-- `Pen` from `pen.rs`: a canonical pen sample. -/
structure Pen where
  x : ℚ
  y : ℚ
  pressure : ℕ
  buttons : ℕ
  deriving DecidableEq, Repr

/-- `Pen::default()`: all fields zero. -/
def Pen.penDefault : Pen := ⟨0, 0, 0, 0⟩

/-- `dist_sq` from `wheel.rs`: squared euclidean distance from the origin. -/
def dist_sq (x y : ℚ) : ℚ := x * x + y * y

/-- `clamp_symmetric` from `wheel.rs`: clamp `v` into `[-max_d, max_d]`. -/
def clamp_symmetric (maxD v : ℚ) : ℚ :=
  if v < -maxD then -maxD
  else if v > maxD then maxD
  else v

/-- Fuel-indexed unfolding of the first `while` loop of `angle_delta`
(`while delta < -180 { delta += 360 }`).  The fuel passed by `wrapLow`
is exactly the number of iterations the loop performs, so the
function agrees with the loop on every input. -/
def wrapLowAux : ℕ → ℚ → ℚ
  | 0, d => d
  | n + 1, d => if d < -180 then wrapLowAux n (d + 360) else d

/-- First loop of `angle_delta`: add 360 until the value is ≥ -180. -/
def wrapLow (d : ℚ) : ℚ := wrapLowAux (⌈(-180 - d) / 360⌉.toNat) d

/-- Fuel-indexed unfolding of the second `while` loop of `angle_delta`
(`while delta > 180 { delta -= 360 }`). -/
def wrapHighAux : ℕ → ℚ → ℚ
  | 0, d => d
  | n + 1, d => if d > 180 then wrapHighAux n (d - 360) else d

/-- Second loop of `angle_delta`: subtract 360 until the value is ≤ 180. -/
def wrapHigh (d : ℚ) : ℚ := wrapHighAux (⌈(d - 180) / 360⌉.toNat) d

/-- `angle_delta` from `wheel.rs` (degrees version): shortest signed
angular difference from `a` to `b`, the two wrap loops run in sequence. -/
def angle_delta (a b : ℚ) : ℚ := wrapHigh (wrapLow (b - a))

/-- `adjust_angle_delta` from `wheel.rs` (also `math.rs`): damp the raw
angular delta by `min(dist, base) / base`. -/
def adjust_angle_delta (angle dist base : ℚ) : ℚ :=
  let factor := min dist base / base
  angle * factor

/-- The fields of `Config` from `config.rs` that the wheel physics read. -/
structure Config where
  range : ℚ
  horn_radius : ℚ
  pressure_threshold : ℕ
  base_radius : ℚ
  inertia : ℚ
  friction : ℚ
  spring : ℚ
  max_torque : ℚ
  deriving DecidableEq, Repr

/-- The device as the wheel sees it (trait `Device`): a feedback reading
(`None` = the device reports no force feedback) and the two pending
output slots `wheel_axis` / `horn_key` that `set_wheel` / `set_horn`
fill (take-semantics fields of `UInputDevice`). -/
structure DevM where
  feedback : Option ℚ
  wheel_axis : Option ℚ
  horn_key : Option Bool
  deriving DecidableEq, Repr

/-- The transcendental `f32` primitives `sqrt` and `atan2` that
`Wheel::update` calls; the model is parameterised over them because they
are not rational-valued. -/
structure TransOps where
  sqrt : ℚ → ℚ
  atan2 : ℚ → ℚ → ℚ

/-- `Wheel` from `wheel.rs`; `prev_pos : Pos2` is split into
`prev_x`/`prev_y`. -/
structure Wheel where
  angle : ℚ
  velocity : ℚ
  feedback_torque : ℚ
  honking : Bool
  dragging : Bool
  prev_x : ℚ
  prev_y : ℚ
  prev_angle : ℚ
  deriving DecidableEq, Repr

/-- `Wheel::default()`: all fields zero / false. -/
def Wheel.wheelDefault : Wheel := ⟨0, 0, 0, false, false, 0, 0, 0⟩

/-- Result of one `Wheel::update` call: the new wheel state, the device
state after any `set_wheel`/`set_horn` calls, and the returned
`significant_change` flag. -/
structure UpdateResult where
  wheel : Wheel
  dev : Option DevM
  significant : Bool
  deriving DecidableEq, Repr

/-- Lines 27–33 of `wheel.rs`: if the angle moved since the last tick and
a device exists, push the normalised angle and mark a significant change. -/
def preSync (w : Wheel) (dev : Option DevM) (half : ℚ) : Option DevM × Bool :=
  if w.angle ≠ w.prev_angle then
    match dev with
    | some d => (some { d with wheel_axis := some (w.angle / half) }, true)
    | none => (none, false)
  else (dev, false)

/-- Lines 43–73 of `wheel.rs`: the free-spin physics block, run only while
not dragging.  Reads the device feedback (0 when absent), integrates the
torque with semi-implicit Euler in degrees (the source converts through
radians with the f32 `PI` constant), snaps small velocities to zero,
advances the angle, and pushes the new normalised angle to the device when
the velocity is large enough. -/
def freeSpin (cfg : Config) (dt : ℚ) (w : Wheel) (dev : Option DevM)
    (significant : Bool) : Wheel × Option DevM × Bool :=
  if w.dragging then (w, dev, significant) else
  let feedback_normalised := ((dev.map DevM.feedback).join).getD 0
  let ft := feedback_normalised * cfg.max_torque
  let wr := toRadians w.velocity
  let th := toRadians w.angle
  let net_force := ft - cfg.friction * wr - cfg.spring * th
  let acc := net_force / cfg.inertia
  let v1 := w.velocity + toDegrees (acc * dt)
  let v2 := if |v1| < 1/20 then 0 else v1
  let w' : Wheel :=
    { w with
      feedback_torque := ft
      velocity := v2
      prev_angle := w.angle
      angle := w.angle + v2 * dt }
  match dev with
  | some d =>
      if 1/100 < |v2| then
        (w', some { d with wheel_axis := some (w'.angle / (cfg.range * (1/2))) }, true)
      else (w', some d, significant)
  | none => (w', none, significant)

/-- `Wheel::update` from `wheel.rs`.  `pen?` is the `Option<Pen>` argument
(defaulted when absent); `dev` the optional device; `dt` the tick length.
The NaN/Infinity guards of the source are identities in the rational
model.  Returns the new wheel, device, and `significant_change`. -/
def Wheel.update (ops : TransOps) (w0 : Wheel) (dev0 : Option DevM)
    (cfg : Config) (pen? : Option Pen) (dt : ℚ) : UpdateResult :=
  let pen := pen?.getD Pen.penDefault
  let half := cfg.range * (1/2)
  let ds1 := preSync w0 dev0 half
  let fs := freeSpin cfg dt w0 ds1.1 ds1.2
  let w1 := fs.1
  let dev2 := fs.2.1
  let sig2 := fs.2.2
  let w2 : Wheel := { w1 with angle := clamp_symmetric half w1.angle }
  -- check if pen up
  if pen.pressure ≤ cfg.pressure_threshold then
    let dev3 :=
      if w2.honking then dev2.map (fun d => { d with horn_key := some false })
      else dev2
    ⟨{ w2 with honking := false, dragging := false }, dev3, sig2⟩
  -- wheel is held
  else if w2.honking then ⟨w2, dev2, sig2⟩
  else
    let centre_dist := ops.sqrt (dist_sq pen.x pen.y)
    if w2.dragging = false ∧ centre_dist ≤ cfg.horn_radius then
      -- start honking
      ⟨{ w2 with honking := true },
        dev2.map (fun d => { d with horn_key := some true }), sig2⟩
    else if w2.dragging then
      -- already dragging: apply the damped polar delta
      let prev_theta := toDegrees (ops.atan2 w2.prev_x w2.prev_y)
      let theta := toDegrees (ops.atan2 pen.x pen.y)
      let delta_t := angle_delta prev_theta theta
      let adjusted := adjust_angle_delta delta_t centre_dist cfg.base_radius
      let na := clamp_symmetric half (w2.angle + adjusted)
      ⟨{ w2 with angle := na, dragging := true, prev_x := pen.x, prev_y := pen.y },
        dev2.map (fun d => { d with wheel_axis := some (na / half) }),
        if dev2.isSome then true else sig2⟩
    else
      ⟨{ w2 with dragging := true, prev_x := pen.x, prev_y := pen.y }, dev2, sig2⟩

/-- One scheduler tick's inputs to the wheel: device, pen sample, tick
length. -/
structure TickIn where
  dev : Option DevM
  pen : Option Pen
  dt : ℚ

/-- Fold `Wheel::update` over a sequence of ticks (wheel state only). -/
def runTicks (ops : TransOps) (cfg : Config) (w : Wheel) : List TickIn → Wheel
  | [] => w
  | t :: ts => runTicks ops cfg (Wheel.update ops w t.dev cfg t.pen t.dt).wheel ts

/-! ## Mapping (`mapping.rs`) -/

/-- `MapOrientation` from `mapping.rs`. -/
inductive MapOrientation where
  | none
  | a90
  | a180
  | a270
  deriving DecidableEq, Repr

/-- `Mapping` from `mapping.rs`. -/
structure Mapping where
  min_in_x : ℚ
  min_in_y : ℚ
  max_in_x : ℚ
  max_in_y : ℚ
  min_out_x : ℚ
  min_out_y : ℚ
  max_out_x : ℚ
  max_out_y : ℚ
  orientation : MapOrientation
  invert_x : Bool
  invert_y : Bool
  deriving DecidableEq, Repr

/-- `Mapping::default()`: identity configuration. -/
def Mapping.mappingDefault : Mapping :=
  ⟨-1, -1, 1, 1, -1, -1, 1, 1, MapOrientation.none, false, false⟩

/-- `lerp` from `mapping.rs`. -/
def lerp (t b1 b2 : ℚ) : ℚ := b1 + t * (b2 - b1)

/-- `inv_lerp` from `mapping.rs`. -/
def inv_lerp (t a1 a2 : ℚ) : ℚ := (t - a1) / (a2 - a1)

/-- `f32::clamp(min, max)`: comparisons are exact on floats, so the
rational model is the same function. -/
def clampQ (lo hi v : ℚ) : ℚ :=
  if v < lo then lo else if v > hi then hi else v

/-- `Mapping::transform` from `mapping.rs` in exact arithmetic:
inverse-lerp into [0,1] with clamp, optional axis inversion, lerp into
the output range with clamp to [-1,1], then the 0/90/180/270° rotation. -/
def Mapping.transform (m : Mapping) (x0 y0 : ℚ) : ℚ × ℚ :=
  let x1 := clampQ 0 1 (inv_lerp x0 m.min_in_x m.max_in_x)
  let y1 := clampQ 0 1 (inv_lerp y0 m.min_in_y m.max_in_y)
  let x2 := if m.invert_x then 1 - x1 else x1
  let y2 := if m.invert_y then 1 - y1 else y1
  let x3 := clampQ (-1) 1 (lerp x2 m.min_out_x m.max_out_x)
  let y3 := clampQ (-1) 1 (lerp y2 m.min_out_y m.max_out_y)
  match m.orientation with
  | MapOrientation.none => (x3, y3)
  | MapOrientation.a90 => (-y3, x3)
  | MapOrientation.a180 => (-x3, -y3)
  | MapOrientation.a270 => (y3, -x3)

/-! ## f32 rounding model

Round-to-nearest-even at 24-bit significand, the IEEE-754 binary32
rounding applied after every arithmetic operation (overflow to infinity
is not modelled; all values involved here are far below the f32 maximum). -/

/-- Round a rational to the nearest integer, ties to even. -/
def roundHalfEven (x : ℚ) : ℤ :=
  let n := ⌊x⌋
  let f := x - n
  if f < 1/2 then n
  else if f > 1/2 then n + 1
  else if Even n then n else n + 1

/-- Round a rational to the nearest f32 value (round-nearest-even,
24-bit significand, subnormal range below exponent -126). -/
def fl (q : ℚ) : ℚ :=
  if q = 0 then 0
  else
    let s : ℚ := if q < 0 then -1 else 1
    let e : ℤ := max (Int.log 2 |q|) (-126)
    s * (roundHalfEven (|q| / 2 ^ (e - 23)) : ℚ) * 2 ^ (e - 23)

/-- f32 addition: exact sum then rounding. -/
def add32 (a b : ℚ) : ℚ := fl (a + b)

/-- f32 subtraction: exact difference then rounding. -/
def sub32 (a b : ℚ) : ℚ := fl (a - b)

/-- f32 multiplication: exact product then rounding. -/
def mul32 (a b : ℚ) : ℚ := fl (a * b)

/-- f32 division: exact quotient then rounding. -/
def div32 (a b : ℚ) : ℚ := fl (a / b)

/-- `inv_lerp` from `mapping.rs` under f32 rounding. -/
def inv_lerp32 (t a1 a2 : ℚ) : ℚ := div32 (sub32 t a1) (sub32 a2 a1)

/-- `lerp` from `mapping.rs` under f32 rounding. -/
def lerp32 (t b1 b2 : ℚ) : ℚ := add32 b1 (mul32 t (sub32 b2 b1))

/-- `Mapping::transform` under f32 rounding (negation and comparisons are
exact in f32, so only the lerp arithmetic rounds). -/
def Mapping.transform32 (m : Mapping) (x0 y0 : ℚ) : ℚ × ℚ :=
  let x1 := clampQ 0 1 (inv_lerp32 x0 m.min_in_x m.max_in_x)
  let y1 := clampQ 0 1 (inv_lerp32 y0 m.min_in_y m.max_in_y)
  let x2 := if m.invert_x then sub32 1 x1 else x1
  let y2 := if m.invert_y then sub32 1 y1 else y1
  let x3 := clampQ (-1) 1 (lerp32 x2 m.min_out_x m.max_out_x)
  let y3 := clampQ (-1) 1 (lerp32 y2 m.min_out_y m.max_out_y)
  match m.orientation with
  | MapOrientation.none => (x3, y3)
  | MapOrientation.a90 => (-y3, x3)
  | MapOrientation.a180 => (-x3, -y3)
  | MapOrientation.a270 => (y3, -x3)

/-! ## Network source (`source/net.rs`) and scheduler pen hold
(`controller.rs`) -/

/-- Value denoted by a 32-bit IEEE-754 bit pattern, as a rational.
Normal and subnormal values are exact; the non-finite encodings
(exponent 255: infinities and NaNs) have no rational value and are
mapped to 0 — no claim here evaluates them. -/
def f32val (bits : ℕ) : ℚ :=
  let s : ℚ := if bits / 2 ^ 31 % 2 = 1 then -1 else 1
  let e : ℕ := bits / 2 ^ 23 % 256
  let m : ℕ := bits % 2 ^ 23
  if e = 0 then s * m * (2 ^ 149)⁻¹
  else if e = 255 then 0
  else s * (2 ^ 23 + m) * (2 : ℚ) ^ ((e : ℤ) - 150)

/-- `u32::from_le_bytes`. -/
def u32le (b0 b1 b2 b3 : ℕ) : ℕ :=
  b0 + 256 * b1 + 65536 * b2 + 16777216 * b3

/-- Decode one well-formed 13-byte datagram into a `Pen`
(`f32 x, f32 y, u32 pressure, u8 buttons`, all little-endian), as the
body of the receive loop in `NetSource::get` does. -/
def decodePen (d : List ℕ) : Pen :=
  { x := f32val (u32le (d.getD 0 0) (d.getD 1 0) (d.getD 2 0) (d.getD 3 0))
    y := f32val (u32le (d.getD 4 0) (d.getD 5 0) (d.getD 6 0) (d.getD 7 0))
    pressure := u32le (d.getD 8 0) (d.getD 9 0) (d.getD 10 0) (d.getD 11 0)
    buttons := d.getD 12 0 }

/-- The receive loop of `NetSource::get` over the queue of datagrams the
socket delivers this tick (each entry is the byte string a `recv_from`
call returns): a well-formed 13-byte datagram is decoded and the loop
continues (later datagrams overwrite earlier ones); an empty queue or a
datagram of any other length ends the loop, returning the last decoded
sample if any (`filled.then_some(pen)`). -/
def netGetAux : Option Pen → List (List ℕ) → Option Pen
  | filled, [] => filled
  | filled, d :: rest =>
      if d.length ≠ 13 then filled else netGetAux (some (decodePen d)) rest

/-- `NetSource::get`: run the receive loop with nothing decoded yet. -/
def netGet (queue : List (List ℕ)) : Option Pen := netGetAux none queue

/-- The last-value-hold step of `controller::update`
(`if let Some(ref pen) = state.source.get() { state.pen = Some(pen) }`):
a new sample replaces the held one, absence of a sample keeps it. -/
def heldPen (prev got : Option Pen) : Option Pen :=
  match got with
  | some p => some p
  | none => prev

/-! ## Force feedback (`device/uinput.rs`) -/

/-- `FFState` from `device/uinput.rs`: the tracked constant-force
effect.  `force` is the `i16` level. -/
structure FFState where
  request_id : ℕ
  playing : Bool
  force : ℤ
  deriving DecidableEq, Repr

/-- `UInputDevice::get_feedback`: 0 when no effect is tracked or the
tracked effect is not playing, else `force / i16::MAX` (exact-arithmetic
model of the f32 division). -/
def get_feedback (ff : Option FFState) : ℚ :=
  match ff with
  | none => 0
  | some s => if s.playing = false then 0 else (s.force : ℚ) / 32767

/-! ## Concrete instances used by witnesses and counterexamples -/

/-- A concrete instance of the transcendental primitives, agreeing with
the true `sqrt` and `atan2` at every input where the concrete scenarios
below evaluate them: `sqrt 0 = 0`, `sqrt 1 = 1`, and `atan2 0 1 = 0`. -/
def cexOps : TransOps :=
  ⟨fun q => if q = 1 then 1 else 0, fun _ _ => 0⟩

/-- The default `Config` values of `config.rs` (the fields the wheel
reads): range 1800°, horn radius 0.3, pressure threshold 10, base radius
0.6, inertia 1, friction 25, spring 0, max torque 300. -/
def cfgDefault : Config := ⟨1800, 3/10, 10, 6/10, 1, 25, 0, 300⟩

/-- As `cfgDefault` but with zero friction, used where a scenario needs
the free-spin step to keep a non-zero velocity. -/
def cfgNoFriction : Config := ⟨1800, 3/10, 10, 6/10, 1, 0, 0, 300⟩

/-! ## Helper lemmas -/

lemma abs_clamp_symmetric_le (m v : ℚ) (hm : 0 ≤ m) :
    |clamp_symmetric m v| ≤ m := by
  unfold clamp_symmetric
  split_ifs with h1 h2
  · simp [abs_of_nonpos, hm, neg_nonpos.mpr hm]
  · rw [abs_of_nonneg hm]
  · rw [abs_le]
    exact ⟨by linarith [not_lt.mp h1], by linarith [not_lt.mp h2]⟩

lemma clamp_symmetric_eq_self (m v : ℚ) (h : |v| ≤ m) :
    clamp_symmetric m v = v := by
  rw [abs_le] at h
  unfold clamp_symmetric
  rw [if_neg (by linarith), if_neg (by linarith)]

lemma wrapLowAux_of_ge (n : ℕ) (d : ℚ) (h : -180 ≤ d) : wrapLowAux n d = d := by
  cases n <;> simp [wrapLowAux, not_lt.mpr h]

lemma wrapHighAux_of_le (n : ℕ) (d : ℚ) (h : d ≤ 180) : wrapHighAux n d = d := by
  cases n <;> simp [wrapHighAux, not_lt.mpr h]

/-- `angle_delta` is the plain difference when it is already in range. -/
lemma angle_delta_small (a b : ℚ) (h1 : -180 ≤ b - a) (h2 : b - a ≤ 180) :
    angle_delta a b = b - a := by
  unfold angle_delta wrapLow wrapHigh
  rw [wrapLowAux_of_ge _ _ h1, wrapHighAux_of_le _ _ h2]

lemma freeSpin_wheel_honking (cfg : Config) (dt : ℚ) (w : Wheel)
    (dev : Option DevM) (s : Bool) :
    (freeSpin cfg dt w dev s).1.honking = w.honking := by
  unfold freeSpin
  cases dev <;> dsimp only <;> split_ifs <;> rfl

lemma freeSpin_wheel_dragging (cfg : Config) (dt : ℚ) (w : Wheel)
    (dev : Option DevM) (s : Bool) :
    (freeSpin cfg dt w dev s).1.dragging = w.dragging := by
  unfold freeSpin
  cases dev <;> dsimp only <;> split_ifs <;> rfl

lemma freeSpin_of_dragging (cfg : Config) (dt : ℚ) (w : Wheel)
    (dev : Option DevM) (s : Bool) (h : w.dragging = true) :
    freeSpin cfg dt w dev s = (w, dev, s) := by
  unfold freeSpin
  rw [if_pos h]

lemma freeSpin_dev_isSome (cfg : Config) (dt : ℚ) (w : Wheel)
    (dev : Option DevM) (s : Bool) :
    (freeSpin cfg dt w dev s).2.1.isSome = dev.isSome := by
  unfold freeSpin
  cases dev <;> dsimp only <;> split_ifs <;> rfl

lemma preSync_dev_isSome (w : Wheel) (dev : Option DevM) (half : ℚ) :
    (preSync w dev half).1.isSome = dev.isSome := by
  unfold preSync
  cases dev <;> split_ifs <;> rfl

/-- Single tick of honk hysteresis: a pressed pen never clears `honking`. -/
lemma update_honking_of_pressure_gt (ops : TransOps) (w : Wheel)
    (dev : Option DevM) (cfg : Config) (pen? : Option Pen) (dt : ℚ)
    (hw : w.honking = true)
    (hp : cfg.pressure_threshold < (pen?.getD Pen.penDefault).pressure) :
    (Wheel.update ops w dev cfg pen? dt).wheel.honking = true := by
  unfold Wheel.update
  dsimp only
  rw [if_neg (not_le.mpr hp)]
  rw [if_pos (by rw [freeSpin_wheel_honking]; exact hw)]
  dsimp only
  rw [freeSpin_wheel_honking]
  exact hw

/-- A tick that observes pen-up pressure clears `honking` and `dragging`. -/
lemma update_lift (ops : TransOps) (w : Wheel) (dev : Option DevM)
    (cfg : Config) (pen? : Option Pen) (dt : ℚ)
    (hp : (pen?.getD Pen.penDefault).pressure ≤ cfg.pressure_threshold) :
    (Wheel.update ops w dev cfg pen? dt).wheel.honking = false ∧
    (Wheel.update ops w dev cfg pen? dt).wheel.dragging = false := by
  unfold Wheel.update
  dsimp only
  rw [if_pos hp]
  exact ⟨rfl, rfl⟩

lemma runTicks_honking (ops : TransOps) (cfg : Config) (w : Wheel)
    (ts : List TickIn) (hw : w.honking = true)
    (hp : ∀ t ∈ ts, cfg.pressure_threshold < (t.pen.getD Pen.penDefault).pressure) :
    (runTicks ops cfg w ts).honking = true := by
  induction ts generalizing w with
  | nil => exact hw
  | cons t ts ih =>
      rw [runTicks]
      exact ih _
        (update_honking_of_pressure_gt ops w t.dev cfg t.pen t.dt hw
          (hp t (List.mem_cons_self t ts)))
        (fun t' ht' => hp t' (List.mem_cons_of_mem t ht'))

/-! ## Claim theorems -/

/-- C1: for every wheel state, pen sample (including none), device, and
config with positive range, after one `Wheel::update` call the angle
satisfies `|angle| ≤ half_range` with `half_range = range * 0.5`, on every
path. -/
theorem update_angle_within_half_range (ops : TransOps) (w : Wheel)
    (dev : Option DevM) (cfg : Config) (pen? : Option Pen) (dt : ℚ)
    (hr : 0 < cfg.range) :
    |(Wheel.update ops w dev cfg pen? dt).wheel.angle| ≤ cfg.range * (1/2) := by
  have hhalf : 0 ≤ cfg.range * (1/2) := by linarith
  unfold Wheel.update
  dsimp only
  split_ifs <;> exact abs_clamp_symmetric_le _ _ hhalf

theorem update_angle_within_half_range_witness :
    0 < cfgDefault.range ∧
    |(Wheel.update cexOps Wheel.wheelDefault none cfgDefault
        (some ⟨1, 0, 100, 0⟩) (1/125)).wheel.angle| ≤ cfgDefault.range * (1/2) :=
  ⟨by norm_num [cfgDefault],
    update_angle_within_half_range cexOps Wheel.wheelDefault none cfgDefault
      (some ⟨1, 0, 100, 0⟩) (1/125) (by norm_num [cfgDefault])⟩

/-- C2: once `honking` is true it stays true across any sequence of ticks
whose pressure stays above the threshold — whatever the pen positions,
devices or tick lengths — and a tick that observes
`pressure ≤ pressure_threshold` sets `honking` to false. -/
theorem honk_hysteresis (ops : TransOps) (cfg : Config) (w : Wheel)
    (ts : List TickIn) (hw : w.honking = true)
    (hp : ∀ t ∈ ts, cfg.pressure_threshold < (t.pen.getD Pen.penDefault).pressure) :
    (runTicks ops cfg w ts).honking = true ∧
    ∀ (w' : Wheel) (dev : Option DevM) (pen? : Option Pen) (dt : ℚ),
      (pen?.getD Pen.penDefault).pressure ≤ cfg.pressure_threshold →
      (Wheel.update ops w' dev cfg pen? dt).wheel.honking = false :=
  ⟨runTicks_honking ops cfg w ts hw hp,
    fun w' dev pen? dt hp' => (update_lift ops w' dev cfg pen? dt hp').1⟩

theorem honk_hysteresis_witness :
    (⟨0, 0, 0, true, false, 0, 0, 0⟩ : Wheel).honking = true ∧
    (runTicks cexOps cfgDefault ⟨0, 0, 0, true, false, 0, 0, 0⟩
      [⟨none, some ⟨1, 0, 50, 0⟩, 1/125⟩, ⟨none, some ⟨0, 1, 11, 0⟩, 1/125⟩]).honking = true :=
  ⟨rfl,
    (honk_hysteresis cexOps cfgDefault ⟨0, 0, 0, true, false, 0, 0, 0⟩
      [⟨none, some ⟨1, 0, 50, 0⟩, 1/125⟩, ⟨none, some ⟨0, 1, 11, 0⟩, 1/125⟩] rfl
      (by intro t ht; fin_cases ht <;> norm_num [cfgDefault])).1⟩

/-- C3 counterexample: on a dragging tick the drag branch does not
recompute `velocity`, so the claimed identity
`velocity = (angle − prev_angle) / dt` fails.  Here the wheel is dragging
with stale velocity 10000, the pen stays at (0, 1) (where `atan2` is 0),
and after the tick `velocity` is still 10000 while
`(angle − prev_angle) / dt = 0`. -/
theorem drag_velocity_cex :
    (⟨0, 10000, 0, false, true, 0, 1, 0⟩ : Wheel).dragging = true ∧
    10 < (100 : ℕ) ∧
    (Wheel.update cexOps ⟨0, 10000, 0, false, true, 0, 1, 0⟩ none cfgDefault
        (some ⟨0, 1, 100, 0⟩) 1).wheel.velocity ≠
      ((Wheel.update cexOps ⟨0, 10000, 0, false, true, 0, 1, 0⟩ none cfgDefault
          (some ⟨0, 1, 100, 0⟩) 1).wheel.angle -
        (Wheel.update cexOps ⟨0, 10000, 0, false, true, 0, 1, 0⟩ none cfgDefault
          (some ⟨0, 1, 100, 0⟩) 1).wheel.prev_angle) / 1 := by
  refine ⟨rfl, by norm_num, ?_⟩
  have hδ : angle_delta 0 0 = 0 := by
    rw [angle_delta_small _ _ (by norm_num) (by norm_num)]
    norm_num
  norm_num [Wheel.update, freeSpin, preSync, cexOps, cfgDefault, toRadians, toDegrees,
    dist_sq, clamp_symmetric, Pen.penDefault, pi32, hδ, adjust_angle_delta]

/-- C3 amended: on every dragging tick `Wheel::update` leaves `velocity`
unchanged — the drag branch does not recompute it — so the free-spin tick
that follows a drag resumes from the velocity that was current when
dragging began. -/
theorem drag_velocity_unchanged (ops : TransOps) (w : Wheel)
    (dev : Option DevM) (cfg : Config) (pen? : Option Pen) (dt : ℚ)
    (hd : w.dragging = true) :
    (Wheel.update ops w dev cfg pen? dt).wheel.velocity = w.velocity := by
  unfold Wheel.update
  dsimp only
  rw [freeSpin_of_dragging cfg dt w _ _ hd]
  dsimp only
  split_ifs <;> rfl

theorem drag_velocity_unchanged_witness :
    (⟨0, 10000, 0, false, true, 0, 1, 0⟩ : Wheel).dragging = true ∧
    (Wheel.update cexOps ⟨0, 10000, 0, false, true, 0, 1, 0⟩ none cfgDefault
      (some ⟨0, 1, 100, 0⟩) 1).wheel.velocity = 10000 :=
  ⟨rfl,
    drag_velocity_unchanged cexOps ⟨0, 10000, 0, false, true, 0, 1, 0⟩ none cfgDefault
      (some ⟨0, 1, 100, 0⟩) 1 rfl⟩

/-- C4 counterexample: at raw delta 0 (with `centre_dist = 0 < 1 =
base_radius`, both legal) the adjusted delta is 0, which is not
*strictly* smaller in magnitude than the raw delta. -/
theorem adjust_angle_delta_cex :
    (0 : ℚ) ≤ 0 ∧ (0 : ℚ) < 1 ∧
    ¬ |adjust_angle_delta 0 0 1| < |(0 : ℚ)| := by
  norm_num [adjust_angle_delta]

/-- C4 amended: for every *non-zero* raw delta, `centre_dist ≥ 0` and
`base_radius > 0`: if `centre_dist < base_radius` the damped delta is
strictly smaller in magnitude than the raw delta, and if
`centre_dist ≥ base_radius` it equals the raw delta. -/
theorem adjust_angle_delta_damping (delta dist base : ℚ)
    (hd : 0 ≤ dist) (hb : 0 < base) :
    (dist < base → delta ≠ 0 →
      |adjust_angle_delta delta dist base| < |delta|) ∧
    (base ≤ dist → adjust_angle_delta delta dist base = delta) := by
  constructor
  · intro hlt hne
    unfold adjust_angle_delta
    have hmin : min dist base = dist := min_eq_left (le_of_lt hlt)
    have hf0 : 0 ≤ dist / base := div_nonneg hd (le_of_lt hb)
    have hf1 : dist / base < 1 := (div_lt_one hb).mpr hlt
    rw [hmin, abs_mul, abs_of_nonneg hf0]
    exact mul_lt_of_lt_one_right (abs_pos.mpr hne) hf1
  · intro hge
    unfold adjust_angle_delta
    rw [min_eq_right hge, div_self (ne_of_gt hb), mul_one]

/-! ## f32 rounding evaluation lemmas -/

lemma roundHalfEven_eval (x : ℚ) (n : ℤ) (hf : ⌊x⌋ = n) (hlt : x - n < 1/2) :
    roundHalfEven x = n := by
  unfold roundHalfEven
  rw [hf, if_pos hlt]

lemma fl_pos_eval (q : ℚ) (e : ℤ) (hq : 0 < q) (hlog : Int.log 2 q = e)
    (he : -126 ≤ e) :
    fl q = (roundHalfEven (q / 2 ^ (e - 23)) : ℚ) * 2 ^ (e - 23) := by
  unfold fl
  rw [if_neg (ne_of_gt hq), abs_of_pos hq, if_neg (not_lt.mpr (le_of_lt hq)), hlog,
    max_eq_left he]
  ring

lemma fl_one_plus_eps : fl (33554433/33554432) = 1 := by
  have hlog : Int.log 2 ((33554433 : ℚ)/33554432) = 0 := by
    have h : ⌊(33554433 : ℚ)/33554432⌋₊ = 1 := by
      rw [Nat.floor_eq_iff (by norm_num)]; norm_num
    norm_num [Int.log, h]
  rw [fl_pos_eval _ 0 (by norm_num) hlog (by norm_num)]
  have hr : roundHalfEven ((33554433 : ℚ)/33554432 / 2 ^ ((0 : ℤ) - 23)) = 8388608 := by
    apply roundHalfEven_eval
    · rw [Int.floor_eq_iff]
      norm_num
    · norm_num
  rw [hr]
  norm_num

lemma fl_two : fl 2 = 2 := by
  have hlog : Int.log 2 ((2 : ℚ)) = 1 := by
    have h : ⌊(2 : ℚ)⌋₊ = 2 := by rw [Nat.floor_eq_iff (by norm_num)]; norm_num
    norm_num [Int.log, h, Nat.log]
  rw [fl_pos_eval _ 1 (by norm_num) hlog (by norm_num)]
  have hr : roundHalfEven ((2 : ℚ) / 2 ^ ((1 : ℤ) - 23)) = 8388608 := by
    apply roundHalfEven_eval
    · rw [Int.floor_eq_iff]
      norm_num
    · norm_num
  rw [hr]
  norm_num

lemma fl_one : fl 1 = 1 := by
  have hlog : Int.log 2 ((1 : ℚ)) = 0 := Int.log_one_right 2
  rw [fl_pos_eval _ 0 (by norm_num) hlog (by norm_num)]
  have hr : roundHalfEven ((1 : ℚ) / 2 ^ ((0 : ℤ) - 23)) = 8388608 := by
    apply roundHalfEven_eval
    · rw [Int.floor_eq_iff]
      norm_num
    · norm_num
  rw [hr]
  norm_num

lemma fl_half : fl (1/2) = 1/2 := by
  have hlog : Int.log 2 ((1 : ℚ)/2) = -1 := by
    have h : ⌈((1 : ℚ)/2)⁻¹⌉₊ = 2 := by rw [Nat.ceil_eq_iff (by norm_num)]; norm_num
    norm_num [Int.log, h, Nat.clog]
  rw [fl_pos_eval _ (-1) (by norm_num) hlog (by norm_num)]
  have hr : roundHalfEven ((1 : ℚ)/2 / 2 ^ ((-1 : ℤ) - 23)) = 8388608 := by
    apply roundHalfEven_eval
    · rw [Int.floor_eq_iff]
      norm_num
    · norm_num
  rw [hr]
  norm_num

lemma fl_zero : fl 0 = 0 := by simp [fl]

/-- C5 counterexample: under real f32 round-to-nearest-even arithmetic the
default mapping is *not* the exact identity on all of [-1, 1]²: at
x = 2⁻²⁵ (a value inside [-1, 1]) the inverse-lerp's addition `x + 1`
rounds to 1, and the transform returns 0 instead of x. -/
theorem mapping32_default_not_identity :
    (-1 : ℚ) ≤ 1/33554432 ∧ (1/33554432 : ℚ) ≤ 1 ∧
    Mapping.transform32 Mapping.mappingDefault (1/33554432) 0 = (0, 0) ∧
    (1/33554432 : ℚ) ≠ 0 := by
  have h1 : sub32 (1/33554432) (-1) = 1 := by
    rw [sub32, show (1 : ℚ)/33554432 - (-1) = 33554433/33554432 by norm_num, fl_one_plus_eps]
  have h2 : sub32 1 (-1) = 2 := by rw [sub32]; norm_num [fl_two]
  have h3 : sub32 0 (-1) = 1 := by rw [sub32]; norm_num [fl_one]
  refine ⟨by norm_num, by norm_num, ?_, by norm_num⟩
  unfold Mapping.transform32
  rw [Mapping.mappingDefault]
  norm_num [inv_lerp32, lerp32, h1, h2, h3, div32, mul32, add32, fl_half, fl_one, fl_zero,
    clampQ]

/-- C5 amended: in exact (real-valued) arithmetic the default mapping is
the identity on [-1, 1]²; under f32 rounding the result can differ from
the input by one rounding step (see the counterexample). -/
theorem mapping_default_identity (x y : ℚ) (hx1 : -1 ≤ x) (hx2 : x ≤ 1)
    (hy1 : -1 ≤ y) (hy2 : y ≤ 1) :
    Mapping.transform Mapping.mappingDefault x y = (x, y) := by
  have key : ∀ z : ℚ, -1 ≤ z → z ≤ 1 →
      clampQ (-1) 1 (lerp (clampQ 0 1 (inv_lerp z (-1) 1)) (-1) 1) = z := by
    intro z h1 h2
    have e1 : inv_lerp z (-1) 1 = (z + 1)/2 := by unfold inv_lerp; ring
    have e2 : clampQ 0 1 ((z + 1)/2) = (z + 1)/2 := by
      unfold clampQ
      rw [if_neg (by linarith), if_neg (by linarith)]
    have e3 : lerp ((z + 1)/2) (-1) 1 = z := by unfold lerp; ring
    have e4 : clampQ (-1) 1 z = z := by
      unfold clampQ
      rw [if_neg (by linarith), if_neg (by linarith)]
    rw [e1, e2, e3, e4]
  unfold Mapping.transform
  rw [Mapping.mappingDefault]
  dsimp only
  rw [if_neg Bool.false_ne_true, if_neg Bool.false_ne_true]
  rw [key x hx1 hx2, key y hy1 hy2]

theorem mapping_default_identity_witness :
    (-1 : ℚ) ≤ 1/2 ∧ (1/2 : ℚ) ≤ 1 ∧ (-1 : ℚ) ≤ -1 ∧ (-1 : ℚ) ≤ 1 ∧
    Mapping.transform Mapping.mappingDefault (1/2) (-1) = (1/2, -1) :=
  ⟨by norm_num, by norm_num, by norm_num, by norm_num,
    mapping_default_identity (1/2) (-1) (by norm_num) (by norm_num) (by norm_num)
      (by norm_num)⟩

/-- C6 counterexample: the network source applies no clamping, so a
well-formed 13-byte datagram encoding x = 2.0 (bytes 00 00 00 40
little-endian) yields a pen sample whose x lies outside [-1, 1]. -/
theorem net_sample_out_of_range_cex :
    ([0, 0, 0, 64, 0, 0, 0, 0, 0, 0, 0, 0, 0] : List ℕ).length = 13 ∧
    netGet [[0, 0, 0, 64, 0, 0, 0, 0, 0, 0, 0, 0, 0]] = some ⟨2, 0, 0, 0⟩ ∧
    ¬ (-1 ≤ (2 : ℚ) ∧ (2 : ℚ) ≤ 1) := by
  refine ⟨by norm_num, ?_, by norm_num⟩
  norm_num [netGet, netGetAux, decodePen, f32val, u32le]

/-- C6 amended: the network source returns the decoded little-endian
fields verbatim (no clamping), so for every 13-byte datagram whose
*encoded* x and y denote values in [-1, 1], the returned sample's x and y
lie in [-1, 1]. -/
theorem net_decode_within_range (d : List ℕ) (h13 : d.length = 13)
    (hx1 : -1 ≤ (decodePen d).x) (hx2 : (decodePen d).x ≤ 1)
    (hy1 : -1 ≤ (decodePen d).y) (hy2 : (decodePen d).y ≤ 1) :
    netGet [d] = some (decodePen d) ∧
    ∀ p : Pen, netGet [d] = some p →
      -1 ≤ p.x ∧ p.x ≤ 1 ∧ -1 ≤ p.y ∧ p.y ≤ 1 := by
  have he : netGet [d] = some (decodePen d) := by
    unfold netGet netGetAux
    rw [if_neg (by rw [h13]; exact fun h => h rfl)]
    rfl
  refine ⟨he, fun p hp => ?_⟩
  rw [he, Option.some.injEq] at hp
  rw [← hp]
  exact ⟨hx1, hx2, hy1, hy2⟩

theorem net_decode_within_range_witness :
    ([0, 0, 128, 63, 0, 0, 128, 191, 100, 0, 0, 0, 1] : List ℕ).length = 13 ∧
    netGet [[0, 0, 128, 63, 0, 0, 128, 191, 100, 0, 0, 0, 1]] =
      some (decodePen [0, 0, 128, 63, 0, 0, 128, 191, 100, 0, 0, 0, 1]) := by
  have hx : decodePen [0, 0, 128, 63, 0, 0, 128, 191, 100, 0, 0, 0, 1] =
      (⟨1, -1, 100, 1⟩ : Pen) := by
    norm_num [decodePen, f32val, u32le]
  exact ⟨by norm_num,
    (net_decode_within_range [0, 0, 128, 63, 0, 0, 128, 191, 100, 0, 0, 0, 1]
      (by norm_num) (by norm_num [hx]) (by norm_num [hx])
      (by norm_num [hx]) (by norm_num [hx])).1⟩

/-- C7 counterexample: at the valid i16 force level -32768 (`i16::MIN`),
`get_feedback` of a tracked, playing effect returns -32768/32767, which
is strictly below -1 — the returned value does not always lie in
[-1, 1]. -/
theorem get_feedback_out_of_range_cex :
    (-(2 ^ 15) : ℤ) ≤ -32768 ∧ (-32768 : ℤ) ≤ 2 ^ 15 - 1 ∧
    get_feedback (some ⟨7, true, -32768⟩) = -32768/32767 ∧
    get_feedback (some ⟨7, true, -32768⟩) < -1 := by
  norm_num [get_feedback]

/-- C7 amended: for every device FF state with a valid i16 force,
`get_feedback` returns `force / i16::MAX` when an effect is tracked and
playing — a value in [-32768/32767, 1] (within [-1, 1] except at
`force = i16::MIN`, where it is one part in 32767 below -1) — and returns
0 whenever no effect is tracked or the tracked effect is not playing. -/
lemma get_feedback_some (s : FFState) :
    get_feedback (some s) = if s.playing = false then 0 else (s.force : ℚ) / 32767 :=
  rfl

theorem get_feedback_characterised (ff : Option FFState)
    (hlo : ∀ s, ff = some s → -(2 ^ 15 : ℤ) ≤ s.force)
    (hhi : ∀ s, ff = some s → s.force ≤ 2 ^ 15 - 1) :
    (-32768/32767 ≤ get_feedback ff ∧ get_feedback ff ≤ 1) ∧
    (∀ s, ff = some s → s.playing = true →
      get_feedback ff = (s.force : ℚ) / 32767) ∧
    (ff = none → get_feedback ff = 0) ∧
    (∀ s, ff = some s → s.playing = false → get_feedback ff = 0) := by
  cases ff with
  | none =>
      refine ⟨⟨by norm_num [get_feedback], by norm_num [get_feedback]⟩, ?_, ?_, ?_⟩
      · intro s hs; cases hs
      · intro; rfl
      · intro s hs; cases hs
  | some s =>
      have h1q : (-32768 : ℚ) ≤ (s.force : ℚ) := by exact_mod_cast hlo s rfl
      have h2q : (s.force : ℚ) ≤ 32767 := by exact_mod_cast hhi s rfl
      cases hpl : s.playing with
      | false =>
          have hz : get_feedback (some s) = 0 := by
            rw [get_feedback_some, if_pos hpl]
          refine ⟨⟨by rw [hz]; norm_num, by rw [hz]; norm_num⟩, ?_, ?_, ?_⟩
          · intro s' hs' hp
            rw [Option.some.injEq] at hs'
            rw [← hs', hpl] at hp
            cases hp
          · intro h; cases h
          · intro s' hs' hp; exact hz
      | true =>
          have hv : get_feedback (some s) = (s.force : ℚ) / 32767 := by
            rw [get_feedback_some, if_neg (by simp [hpl])]
          refine ⟨⟨?_, ?_⟩, ?_, ?_, ?_⟩
          · rw [hv]
            exact (div_le_div_iff_of_pos_right (by norm_num)).mpr h1q
          · rw [hv]
            exact (div_le_one (by norm_num)).mpr h2q
          · intro s' hs' hp
            rw [Option.some.injEq] at hs'
            rw [← hs']
            exact hv
          · intro h; cases h
          · intro s' hs' hp
            rw [Option.some.injEq] at hs'
            rw [← hs', hpl] at hp
            cases hp

theorem get_feedback_characterised_witness :
    (∀ s : FFState, some (⟨5, true, 16384⟩ : FFState) = some s → -(2 ^ 15 : ℤ) ≤ s.force) ∧
    -32768/32767 ≤ get_feedback (some ⟨5, true, 16384⟩) ∧
    get_feedback (some ⟨5, true, 16384⟩) ≤ 1 ∧
    get_feedback (some ⟨5, true, 16384⟩) = (16384 : ℚ) / 32767 := by
  have h := get_feedback_characterised (some ⟨5, true, 16384⟩)
    (by intro s hs; rw [Option.some.injEq] at hs; rw [← hs]; norm_num)
    (by intro s hs; rw [Option.some.injEq] at hs; rw [← hs]; norm_num)
  exact ⟨by intro s hs; rw [Option.some.injEq] at hs; rw [← hs]; norm_num,
    h.1.1, h.1.2, h.2.1 ⟨5, true, 16384⟩ rfl rfl⟩

/-- C9: a single datagram whose length is not 13 bytes makes
`NetSource::get` return no sample, and the scheduler's last-value-hold
then keeps the previously held pen sample unchanged. -/
theorem net_malformed_discarded (d : List ℕ) (prev : Option Pen)
    (h : d.length ≠ 13) :
    netGet [d] = none ∧ heldPen prev (netGet [d]) = prev := by
  have he : netGet [d] = none := by
    unfold netGet netGetAux
    rw [if_pos h]
  exact ⟨he, by rw [he]; rfl⟩

theorem net_malformed_discarded_witness :
    ([0, 0, 0, 64, 0, 0, 0, 0, 0, 0] : List ℕ).length ≠ 13 ∧
    netGet [[0, 0, 0, 64, 0, 0, 0, 0, 0, 0]] = none ∧
    heldPen (some ⟨1/2, 1/2, 55, 0⟩) (netGet [[0, 0, 0, 64, 0, 0, 0, 0, 0, 0]]) =
      some ⟨1/2, 1/2, 55, 0⟩ :=
  ⟨by norm_num,
    (net_malformed_discarded [0, 0, 0, 64, 0, 0, 0, 0, 0, 0]
      (some ⟨1/2, 1/2, 55, 0⟩) (by norm_num)).1,
    (net_malformed_discarded [0, 0, 0, 64, 0, 0, 0, 0, 0, 0]
      (some ⟨1/2, 1/2, 55, 0⟩) (by norm_num)).2⟩

lemma preSync_none (w : Wheel) (half : ℚ) : preSync w none half = (none, false) := by
  unfold preSync
  split_ifs <;> rfl

/-- With no device, zero velocity and zero spring constant, the free-spin
step only zeroes the feedback torque and refreshes `prev_angle`: the
angle and velocity are unchanged. -/
lemma freeSpin_inert (cfg : Config) (dt : ℚ) (w : Wheel) (s : Bool)
    (hdrag : w.dragging = false) (hvel : w.velocity = 0) (hspring : cfg.spring = 0) :
    freeSpin cfg dt w none s =
      ({ w with feedback_torque := 0, prev_angle := w.angle }, none, s) := by
  unfold freeSpin
  rw [if_neg (by rw [hdrag]; simp)]
  simp [hvel, hspring, toRadians, toDegrees]

/-- C8 counterexample: the free-spin physics run *before* the horn check
on the same tick, so with a non-zero stored velocity the angle does
change on the tick that engages the horn.  Wheel at rest angle 0 with
velocity 100°/s, pen at (0, 0) with pressure 100 > threshold 10, horn
radius 0.3: after the call `honking = true` but the angle moved to 100°. -/
theorem horn_scenarioA_cex :
    (Wheel.update cexOps ⟨0, 100, 0, false, false, 0, 0, 0⟩ none cfgNoFriction
        (some ⟨0, 0, 100, 0⟩) 1).wheel.honking = true ∧
    (Wheel.update cexOps ⟨0, 100, 0, false, false, 0, 0, 0⟩ none cfgNoFriction
        (some ⟨0, 0, 100, 0⟩) 1).wheel.angle = 100 ∧
    (⟨0, 100, 0, false, false, 0, 0, 0⟩ : Wheel).angle ≠ 100 := by
  refine ⟨?_, ?_, by norm_num⟩ <;>
    norm_num [Wheel.update, freeSpin, preSync, cexOps, cfgNoFriction, toRadians,
      toDegrees, dist_sq, clamp_symmetric, Pen.penDefault, pi32]

/-- C8 amended: every `Wheel::update` call with pen at (0, 0), pressure
strictly above the threshold, horn radius 0.3, wheel neither dragging
nor honking, sets `honking` to true and leaves `dragging` false — for
every device, velocity, spring and angle; the horn transition itself
does not move the angle: the angle only changes through the free-spin
physics run earlier in the same tick, and is unchanged by the call
whenever that step is inert (no device, zero velocity, zero spring,
angle within the clamp range). -/
theorem horn_scenarioA_engages (ops : TransOps) (w : Wheel) (dev : Option DevM)
    (cfg : Config) (press buttons : ℕ) (dt : ℚ)
    (hsqrt : ops.sqrt 0 = 0)
    (hhonk : w.honking = false) (hdrag : w.dragging = false)
    (hpress : cfg.pressure_threshold < press)
    (hhr : cfg.horn_radius = 3/10) :
    (Wheel.update ops w dev cfg (some ⟨0, 0, press, buttons⟩) dt).wheel.honking = true ∧
    (Wheel.update ops w dev cfg (some ⟨0, 0, press, buttons⟩) dt).wheel.dragging = false ∧
    (dev = none → w.velocity = 0 → cfg.spring = 0 → |w.angle| ≤ cfg.range * (1/2) →
      (Wheel.update ops w dev cfg (some ⟨0, 0, press, buttons⟩) dt).wheel.angle = w.angle) := by
  have hc : ops.sqrt (dist_sq 0 0) = 0 := by
    rw [show dist_sq 0 0 = 0 by norm_num [dist_sq], hsqrt]
  refine ⟨?_, ?_, ?_⟩
  · unfold Wheel.update
    dsimp only
    simp only [Option.getD_some]
    rw [if_neg (not_le.mpr hpress)]
    rw [if_neg (by rw [freeSpin_wheel_honking, hhonk]; simp)]
    rw [if_pos ⟨by rw [freeSpin_wheel_dragging]; exact hdrag, by rw [hc, hhr]; norm_num⟩]
  · unfold Wheel.update
    dsimp only
    simp only [Option.getD_some]
    rw [if_neg (not_le.mpr hpress)]
    rw [if_neg (by rw [freeSpin_wheel_honking, hhonk]; simp)]
    rw [if_pos ⟨by rw [freeSpin_wheel_dragging]; exact hdrag, by rw [hc, hhr]; norm_num⟩]
    dsimp only
    rw [freeSpin_wheel_dragging]
    exact hdrag
  · intro hdev hvel hspring hangle
    subst hdev
    unfold Wheel.update
    dsimp only
    simp only [Option.getD_some]
    rw [preSync_none]
    dsimp only
    rw [freeSpin_inert cfg dt w false hdrag hvel hspring]
    dsimp only
    rw [clamp_symmetric_eq_self _ _ hangle]
    rw [if_neg (not_le.mpr hpress)]
    rw [if_neg (by rw [hhonk]; simp)]
    rw [if_pos ⟨hdrag, by rw [hc, hhr]; norm_num⟩]

theorem horn_scenarioA_engages_witness :
    cexOps.sqrt 0 = 0 ∧ cfgDefault.pressure_threshold < 100 ∧
    (Wheel.update cexOps ⟨20, 7, 0, false, false, 0, 0, 0⟩ (some ⟨some (1/2), none, none⟩)
      cfgDefault (some ⟨0, 0, 100, 0⟩) (1/125)).wheel.honking = true ∧
    (Wheel.update cexOps ⟨20, 7, 0, false, false, 0, 0, 0⟩ (some ⟨some (1/2), none, none⟩)
      cfgDefault (some ⟨0, 0, 100, 0⟩) (1/125)).wheel.dragging = false ∧
    (Wheel.update cexOps Wheel.wheelDefault none cfgDefault
      (some ⟨0, 0, 100, 0⟩) (1/125)).wheel.angle = Wheel.wheelDefault.angle :=
  ⟨by norm_num [cexOps], by norm_num [cfgDefault],
    (horn_scenarioA_engages cexOps ⟨20, 7, 0, false, false, 0, 0, 0⟩
      (some ⟨some (1/2), none, none⟩) cfgDefault 100 0 (1/125)
      (by norm_num [cexOps]) rfl rfl
      (by norm_num [cfgDefault]) (by norm_num [cfgDefault])).1,
    (horn_scenarioA_engages cexOps ⟨20, 7, 0, false, false, 0, 0, 0⟩
      (some ⟨some (1/2), none, none⟩) cfgDefault 100 0 (1/125)
      (by norm_num [cexOps]) rfl rfl
      (by norm_num [cfgDefault]) (by norm_num [cfgDefault])).2.1,
    (horn_scenarioA_engages cexOps Wheel.wheelDefault none cfgDefault 100 0 (1/125)
      (by norm_num [cexOps]) rfl rfl
      (by norm_num [cfgDefault]) (by norm_num [cfgDefault])).2.2 rfl rfl rfl
      (by norm_num [Wheel.wheelDefault, cfgDefault])⟩

/-- C10: calling `Wheel::update` with no pen sample behaves as a
pen-lift: the defaulted sample has pressure 0, which is ≤ any `u32`
threshold, so after the call `honking` and `dragging` are false, and if
the wheel was honking and a device is present the horn key is released
(`set_horn(false)` is pending on the device). -/
theorem pen_none_release (ops : TransOps) (w : Wheel) (dev : Option DevM)
    (cfg : Config) (dt : ℚ) :
    (Wheel.update ops w dev cfg none dt).wheel.honking = false ∧
    (Wheel.update ops w dev cfg none dt).wheel.dragging = false ∧
    (w.honking = true → ∀ d, dev = some d →
      ∃ d', (Wheel.update ops w dev cfg none dt).dev = some d' ∧
        d'.horn_key = some false) := by
  have hp : ((none : Option Pen).getD Pen.penDefault).pressure ≤ cfg.pressure_threshold :=
    Nat.zero_le _
  refine ⟨(update_lift ops w dev cfg none dt hp).1,
    (update_lift ops w dev cfg none dt hp).2, ?_⟩
  intro hw d hd
  subst hd
  unfold Wheel.update
  dsimp only
  rw [if_pos hp]
  dsimp only
  rw [if_pos (by rw [freeSpin_wheel_honking]; exact hw)]
  have h1 : (preSync w (some d) (cfg.range * (1/2))).1.isSome = true := by
    rw [preSync_dev_isSome]; rfl
  have h2 : (freeSpin cfg dt w (preSync w (some d) (cfg.range * (1/2))).1
      (preSync w (some d) (cfg.range * (1/2))).2).2.1.isSome = true := by
    rw [freeSpin_dev_isSome]; exact h1
  obtain ⟨d2, hd2⟩ := Option.isSome_iff_exists.mp h2
  rw [hd2]
  exact ⟨{ d2 with horn_key := some false }, rfl, rfl⟩

theorem pen_none_release_witness :
    (Wheel.update cexOps ⟨0, 0, 0, true, false, 0, 0, 0⟩ (some ⟨none, none, none⟩)
      cfgDefault none (1/125)).wheel.honking = false ∧
    (Wheel.update cexOps ⟨0, 0, 0, true, false, 0, 0, 0⟩ (some ⟨none, none, none⟩)
      cfgDefault none (1/125)).wheel.dragging = false ∧
    ∃ d', (Wheel.update cexOps ⟨0, 0, 0, true, false, 0, 0, 0⟩ (some ⟨none, none, none⟩)
      cfgDefault none (1/125)).dev = some d' ∧ d'.horn_key = some false :=
  ⟨(pen_none_release cexOps ⟨0, 0, 0, true, false, 0, 0, 0⟩ (some ⟨none, none, none⟩)
      cfgDefault (1/125)).1,
    (pen_none_release cexOps ⟨0, 0, 0, true, false, 0, 0, 0⟩ (some ⟨none, none, none⟩)
      cfgDefault (1/125)).2.1,
    (pen_none_release cexOps ⟨0, 0, 0, true, false, 0, 0, 0⟩ (some ⟨none, none, none⟩)
      cfgDefault (1/125)).2.2 rfl ⟨none, none, none⟩ rfl⟩

theorem adjust_angle_delta_damping_witness :
    (0 : ℚ) ≤ 3/10 ∧ (0 : ℚ) < 3/5 ∧ (3/10 : ℚ) < 3/5 ∧ (90 : ℚ) ≠ 0 ∧
    |adjust_angle_delta 90 (3/10) (3/5)| < |(90 : ℚ)| ∧
    adjust_angle_delta 90 1 (3/5) = 90 :=
  ⟨by norm_num, by norm_num, by norm_num, by norm_num,
    (adjust_angle_delta_damping 90 (3/10) (3/5) (by norm_num) (by norm_num)).1
      (by norm_num) (by norm_num),
    (adjust_angle_delta_damping 90 1 (3/5) (by norm_num) (by norm_num)).2
      (by norm_num)⟩
